import Mathlib

/-!
Verification development for the GPT-J model backend
(src/crates/models/gptj/src/lib.rs) of the llm repository.

Two complementary shallow embeddings are used:

1. a word-level model of the hyperparameter header codec
   (Hyperparameters::read / Hyperparameters::write, lib.rs lines 337-400)
   together with the KV-cache addressing arithmetic transcribed from the
   ggml view construction in evaluate (lib.rs lines 202-256);

2. a semantic model of the forward pass (evaluate, lib.rs lines 133-310)
   over rationals, with the external tensor kernels that the spec treats
   as external collaborators (normalization, rotary encoding, gelu, the
   softmax exponential) abstracted as arbitrary functions in an Ops
   record, and columns of a tensor represented as functions from index
   to rational.
-/

namespace GptJModel

/-! ### Hyperparameter codec (lib.rs lines 337-400) -/

/-- Errors of the loader relevant to the hyperparameter header, mirroring
the llm_base LoadError variants used by Hyperparameters::read. The
reader and the integer conversions live in llm_base, so their failure
variants (an exhausted reader, a negative field) are modelled from the
spec at word granularity. -/
inductive LoadError where
  | Eof : LoadError
  | NegativeField : LoadError
  | UnsupportedFileType : Int → LoadError
  | InvariantBroken : Nat → Nat → LoadError
deriving DecidableEq

/-- Modelled from the spec: util::read_i32 (llm_base) reads one 32-bit
integer field from the binary header; an exhausted reader fails the
load. The byte stream is modelled at 32-bit word granularity. -/
def readI32 : List Int → Except LoadError (Int × List Int)
  | [] => .error .Eof
  | w :: ws => .ok (w, ws)

/-- Modelled from the spec: the try_into() conversion from i32 to usize
applied to each parsed field fails exactly on negative values. -/
def toUsize (i : Int) : Except LoadError Nat :=
  if i < 0 then .error .NegativeField else .ok i.toNat

/-- Rust cast of an i32 value to usize with the as keyword, used by read
for the redundant vocabulary field (lib.rs line 372): reduction modulo
2 ^ 64. -/
def asUsize (i : Int) : Nat := (i % (2 ^ 64 : Int)).toNat

/-- The hyperparameters of the model (lib.rs lines 337-354). The file
type is modelled by its i32 code; membership in the known FileType
enumeration (which lives in llm_base) is abstracted as a predicate
passed to read. -/
structure Hyperparameters where
  n_vocab : Nat
  n_ctx : Nat
  n_embd : Nat
  n_head : Nat
  n_layer : Nat
  n_rot : Nat
  file_type : Int
deriving DecidableEq

/-- Hyperparameters::read (lib.rs lines 358-384): parses seven
fixed-order i32 fields, fails with UnsupportedFileType when the
quantization code is unknown, then reads a redundant vocabulary-size
field and fails with InvariantBroken when it disagrees with the first
field. -/
def Hyperparameters.read (known : Int → Bool) (ws : List Int) :
    Except LoadError (Hyperparameters × List Int) := do
  let r0 ← readI32 ws
  let n_vocab ← toUsize r0.1
  let r1 ← readI32 r0.2
  let n_ctx ← toUsize r1.1
  let r2 ← readI32 r1.2
  let n_embd ← toUsize r2.1
  let r3 ← readI32 r2.2
  let n_head ← toUsize r3.1
  let r4 ← readI32 r3.2
  let n_layer ← toUsize r4.1
  let r5 ← readI32 r4.2
  let n_rot ← toUsize r5.1
  let r6 ← readI32 r5.2
  let file_type ←
    if known r6.1 then Except.ok r6.1
    else Except.error (LoadError.UnsupportedFileType r6.1)
  let r7 ← readI32 r6.2
  let n_vocab2 := asUsize r7.1
  if n_vocab ≠ n_vocab2 then
    Except.error (LoadError.InvariantBroken n_vocab n_vocab2)
  else
    Except.ok (⟨n_vocab, n_ctx, n_embd, n_head, n_layer, n_rot, file_type⟩, r7.2)

/-- Error type of Hyperparameters::write; BasicWriteError wraps the
overflow of an i32 conversion. -/
inductive WriteError where
  | Overflow : WriteError
deriving DecidableEq

/-- Largest i32 value. -/
def i32Max : Int := 2 ^ 31 - 1

/-- Modelled from the spec: the try_into() conversion from usize to i32
used by Hyperparameters::write fails (BasicWriteError, llm_base) when a
field does not fit the target width. -/
def toI32 (n : Nat) : Except WriteError Int :=
  if i32Max < (n : Int) then .error .Overflow else .ok (n : Int)

/-- Hyperparameters::write (lib.rs lines 386-395): serializes the seven
fields in the identical order; no redundant vocabulary field is
written. -/
def Hyperparameters.write (h : Hyperparameters) : Except WriteError (List Int) := do
  let a ← toI32 h.n_vocab
  let b ← toI32 h.n_ctx
  let c ← toI32 h.n_embd
  let d ← toI32 h.n_head
  let e ← toI32 h.n_layer
  let f ← toI32 h.n_rot
  Except.ok [a, b, c, d, e, f, h.file_type]

/-! ### KV cache addressing (lib.rs lines 202-256) -/

/-- Byte offset of the key-cache view written by evaluate: the third
argument of op_view_1d on memory_k (lib.rs line 209),
(memory_k_size * n_embd) * (il * n_ctx + n_past). -/
def kViewOffsetBytes (esz n_embd n_ctx il n_past : Nat) : Nat :=
  (esz * n_embd) * (il * n_ctx + n_past)

/-- Element count of the key-cache view: the second argument of
op_view_1d on memory_k (lib.rs line 208). -/
def kViewNelements (n n_embd : Nat) : Nat := n * n_embd

/-- Byte offset of the value-cache view written by evaluate: the fourth
argument of op_view_2d on memory_v (lib.rs line 215),
(il * n_ctx) * memory_v_size * n_embd + n_past * memory_v_size. -/
def vViewOffsetBytes (esz n_embd n_ctx il n_past : Nat) : Nat :=
  (il * n_ctx) * esz * n_embd + n_past * esz

/-- Row stride in bytes of the value-cache view: the third argument of
op_view_2d on memory_v (lib.rs line 214), n_ctx * memory_v_size. -/
def vViewRowStrideBytes (esz n_ctx : Nat) : Nat := n_ctx * esz

/-- Byte address of element (i0, i1) of the value-cache view: a ggml 2d
view of shape (n, n_embd) with row stride nb1 places element (i0, i1)
at offset + i0 * esz + i1 * nb1. -/
def vViewAddrBytes (esz n_embd n_ctx il n_past i0 i1 : Nat) : Nat :=
  vViewOffsetBytes esz n_embd n_ctx il n_past + i0 * esz +
    i1 * vViewRowStrideBytes esz n_ctx

/-- KVCache capacity of each buffer in elements. Modelled from the spec:
start_session (lib.rs lines 123-131) passes hyperparameters.n_ctx to
InferenceSession::new (llm_base), and per spec section 3 each buffer
holds n_layer * n_ctx * n_embd elements. -/
def kvCacheCapacityElems (n_layer n_ctx n_embd : Nat) : Nat :=
  n_layer * n_ctx * n_embd

/-- C3: for every layer il and decode position n_past, the key view
starts at element offset il * n_ctx * n_embd + n_past * n_embd (its
byte offset is the element size times that) and spans n * n_embd
contiguous elements, and the value view stores the cache position index
fastest (consecutive positions are one element apart) with a stride of
n_ctx elements between consecutive embedding rows. -/
theorem kv_cache_layout (esz n_embd n_ctx il n_past n i0 i1 : Nat) :
    kViewOffsetBytes esz n_embd n_ctx il n_past =
      esz * (il * n_ctx * n_embd + n_past * n_embd) ∧
    kViewNelements n n_embd = n * n_embd ∧
    vViewAddrBytes esz n_embd n_ctx il n_past (i0 + 1) i1 =
      vViewAddrBytes esz n_embd n_ctx il n_past i0 i1 + esz ∧
    vViewAddrBytes esz n_embd n_ctx il n_past i0 (i1 + 1) =
      vViewAddrBytes esz n_embd n_ctx il n_past i0 i1 + n_ctx * esz := by
  refine ⟨by unfold kViewOffsetBytes; ring, rfl, ?_, ?_⟩
  · unfold vViewAddrBytes vViewOffsetBytes vViewRowStrideBytes; ring
  · unfold vViewAddrBytes vViewOffsetBytes vViewRowStrideBytes; ring

/-- C9: evaluate derives its cache addressing from n_context_tokens (the
ModelParameters value stored on the model, lib.rs lines 100-108 and
151) while start_session sizes the cache from hyperparameters.n_ctx
(lib.rs line 126). Whenever the two differ, the per-layer base offsets
of evaluate disagree with the allocated layout, and when
n_context_tokens exceeds n_ctx there is an in-bounds call (one that
satisfies the session bound n_past + n ≤ n_ctx) whose key write
extends past the allocated capacity. Offsets are measured in elements
(element size one). -/
theorem cache_n_ctx_mismatch (n_embd n_layer nctxHyp nctxEval : Nat)
    (hl : 2 ≤ n_layer) (he : 1 ≤ n_embd) :
    (nctxEval ≠ nctxHyp →
      ∃ il, il < n_layer ∧
        kViewOffsetBytes 1 n_embd nctxEval il 0 ≠
          kViewOffsetBytes 1 n_embd nctxHyp il 0) ∧
    (nctxHyp < nctxEval → 1 ≤ nctxHyp →
      ∃ il n_past n, il < n_layer ∧ 1 ≤ n ∧ n_past + n ≤ nctxHyp ∧
        kvCacheCapacityElems n_layer nctxHyp n_embd <
          kViewOffsetBytes 1 n_embd nctxEval il n_past +
            kViewNelements n n_embd) := by
  constructor
  · intro hne
    refine ⟨1, by omega, ?_⟩
    unfold kViewOffsetBytes
    simp only [one_mul, mul_zero, add_zero, one_mul]
    intro hcontra
    apply hne
    have hpos : 0 < n_embd := he
    exact Nat.eq_of_mul_eq_mul_left hpos (by omega)
  · intro hlt hc
    obtain ⟨a, rfl⟩ : ∃ a, n_layer = a + 2 := ⟨n_layer - 2, by omega⟩
    refine ⟨a + 1, nctxHyp - 1, 1, by omega, le_refl 1, by omega, ?_⟩
    unfold kvCacheCapacityElems kViewOffsetBytes kViewNelements
    have e1 : (a + 2) * nctxHyp = (a + 1) * nctxHyp + nctxHyp := by ring
    have h2 : (a + 1) * (nctxHyp + 1) = (a + 1) * nctxHyp + (a + 1) := by ring
    have h1 : (a + 1) * (nctxHyp + 1) ≤ (a + 1) * nctxEval :=
      Nat.mul_le_mul_left _ (by omega)
    have hR : (a + 2) * nctxHyp ≤ (a + 1) * nctxEval + (nctxHyp - 1) := by omega
    simp only [one_mul]
    calc (a + 2) * nctxHyp * n_embd
        ≤ ((a + 1) * nctxEval + (nctxHyp - 1)) * n_embd :=
          Nat.mul_le_mul_right _ hR
      _ < n_embd * ((a + 1) * nctxEval + (nctxHyp - 1)) + n_embd := by
          rw [Nat.mul_comm]; omega

/-- Witness for cache_n_ctx_mismatch at n_embd = 1, n_layer = 2,
hyperparameter context 2, evaluate context 3. -/
theorem cache_n_ctx_mismatch_witness :
    (∃ il, il < 2 ∧
      kViewOffsetBytes 1 1 3 il 0 ≠ kViewOffsetBytes 1 1 2 il 0) ∧
    (∃ il n_past n, il < 2 ∧ 1 ≤ n ∧ n_past + n ≤ 2 ∧
      kvCacheCapacityElems 2 2 1 <
        kViewOffsetBytes 1 1 3 il n_past + kViewNelements n 1) :=
  ⟨(cache_n_ctx_mismatch 1 2 2 3 (by decide) (by decide)).1 (by decide),
   (cache_n_ctx_mismatch 1 2 2 3 (by decide) (by decide)).2 (by decide) (by decide)⟩

/-- C6: Hyperparameters::read parses the seven fixed-order fields, fails
with UnsupportedFileType exactly when the quantization code is not a
known enumeration value, then reads the redundant vocabulary field and
fails with InvariantBroken exactly when that field disagrees with the
first n_vocab field; when the two agree and the file type is known,
read succeeds with the seven fields in order and the rest of the
stream untouched. -/
theorem hyperparameters_read_spec (known : Int → Bool)
    (a b c d e f : Nat) (ft v2 : Int) (rest : List Int) :
    (known ft = false →
      Hyperparameters.read known
          ([(a : Int), (b : Int), (c : Int), (d : Int), (e : Int), (f : Int), ft, v2] ++ rest) =
        .error (LoadError.UnsupportedFileType ft)) ∧
    (known ft = true → asUsize v2 ≠ a →
      Hyperparameters.read known
          ([(a : Int), (b : Int), (c : Int), (d : Int), (e : Int), (f : Int), ft, v2] ++ rest) =
        .error (LoadError.InvariantBroken a (asUsize v2))) ∧
    (known ft = true → asUsize v2 = a →
      Hyperparameters.read known
          ([(a : Int), (b : Int), (c : Int), (d : Int), (e : Int), (f : Int), ft, v2] ++ rest) =
        .ok (⟨a, b, c, d, e, f, ft⟩, rest)) := by
  have ha := not_lt.mpr (Int.natCast_nonneg a)
  have hb := not_lt.mpr (Int.natCast_nonneg b)
  have hc := not_lt.mpr (Int.natCast_nonneg c)
  have hd := not_lt.mpr (Int.natCast_nonneg d)
  have hee := not_lt.mpr (Int.natCast_nonneg e)
  have hf := not_lt.mpr (Int.natCast_nonneg f)
  refine ⟨?_, ?_, ?_⟩ <;> intro hft
  · simp [Hyperparameters.read, readI32, toUsize, hft, bind, Except.bind,
      ha, hb, hc, hd, hee, hf]
  · intro hne
    simp [Hyperparameters.read, readI32, toUsize, hft, bind, Except.bind,
      ha, hb, hc, hd, hee, hf, Ne.symm hne]
  · intro heq
    simp [Hyperparameters.read, readI32, toUsize, hft, bind, Except.bind,
      ha, hb, hc, hd, hee, hf, heq]

/-- Witness for hyperparameters_read_spec: known codes are 0 and 1; the
three branches evaluated at concrete headers. -/
theorem hyperparameters_read_spec_witness :
    (Hyperparameters.read (fun i => i ≤ 1) [7, 2, 3, 4, 5, 6, 9, 7] =
      .error (LoadError.UnsupportedFileType 9)) ∧
    (Hyperparameters.read (fun i => i ≤ 1) [7, 2, 3, 4, 5, 6, 1, 6] =
      .error (LoadError.InvariantBroken 7 6)) ∧
    (Hyperparameters.read (fun i => i ≤ 1) [7, 2, 3, 4, 5, 6, 1, 7, 42] =
      .ok (⟨7, 2, 3, 4, 5, 6, 1⟩, [42])) :=
  ⟨(hyperparameters_read_spec (fun i => decide (i ≤ 1)) 7 2 3 4 5 6 9 7 []).1
      (by decide),
   (hyperparameters_read_spec (fun i => decide (i ≤ 1)) 7 2 3 4 5 6 1 6 []).2.1
      (by decide) (by decide),
   (hyperparameters_read_spec (fun i => decide (i ≤ 1)) 7 2 3 4 5 6 1 7 [42]).2.2
      (by decide) (by decide)⟩

/-- C10: write emits exactly the seven primary fields, omitting the
redundant vocabulary repeat that read consumes, so read applied to
exactly the stream produced by write never succeeds: the reader is
exhausted one field before read finishes. -/
theorem hyperparameters_write_then_read (h : Hyperparameters) (known : Int → Bool)
    (h0 : (h.n_vocab : Int) ≤ i32Max) (h1 : (h.n_ctx : Int) ≤ i32Max)
    (h2 : (h.n_embd : Int) ≤ i32Max) (h3 : (h.n_head : Int) ≤ i32Max)
    (h4 : (h.n_layer : Int) ≤ i32Max) (h5 : (h.n_rot : Int) ≤ i32Max) :
    h.write = .ok [(h.n_vocab : Int), (h.n_ctx : Int), (h.n_embd : Int),
        (h.n_head : Int), (h.n_layer : Int), (h.n_rot : Int), h.file_type] ∧
    ∀ ws, h.write = .ok ws →
      ws.length = 7 ∧ (Hyperparameters.read known ws).isOk = false := by
  have hw : h.write = .ok [(h.n_vocab : Int), (h.n_ctx : Int), (h.n_embd : Int),
      (h.n_head : Int), (h.n_layer : Int), (h.n_rot : Int), h.file_type] := by
    simp [Hyperparameters.write, toI32, bind, Except.bind, not_lt.mpr h0,
      not_lt.mpr h1, not_lt.mpr h2, not_lt.mpr h3, not_lt.mpr h4, not_lt.mpr h5]
  refine ⟨hw, ?_⟩
  intro ws hws
  rw [hw] at hws
  obtain rfl : ws = [(h.n_vocab : Int), (h.n_ctx : Int), (h.n_embd : Int),
      (h.n_head : Int), (h.n_layer : Int), (h.n_rot : Int), h.file_type] := by
    cases hws; rfl
  refine ⟨rfl, ?_⟩
  cases hk : known h.file_type <;>
    simp [Hyperparameters.read, readI32, toUsize, hk, bind, Except.bind, Except.isOk,
      Except.toBool, not_lt.mpr (Int.natCast_nonneg h.n_vocab),
      not_lt.mpr (Int.natCast_nonneg h.n_ctx), not_lt.mpr (Int.natCast_nonneg h.n_embd),
      not_lt.mpr (Int.natCast_nonneg h.n_head), not_lt.mpr (Int.natCast_nonneg h.n_layer),
      not_lt.mpr (Int.natCast_nonneg h.n_rot)]

/-- SEMANTIC model of the forward pass. A tensor of shape [n_embd, n] is
a list of n position columns, each column a function from component
index to rational. The external tensor kernels the spec lists as
external collaborators (normalization, rotary encoding with rotation
width n_rot, gelu, the softmax exponential, the 1/sqrt(head_dim)
scale) are abstracted as arbitrary functions collected in Ops; every
theorem below holds for every choice of them. -/
abbrev Col := Nat → ℚ

/-- Batch of position columns. -/
abbrev Cols := List Col

/-- Per-layer KV cache: the list of cached key columns and of cached
value columns of each layer. -/
abbrev KV := List (Cols × Cols)

/-- Pointwise sum of two columns (op_add). -/
def addCol (a b : Col) : Col := fun i => a i + b i

/-- Dot product of the first n components. -/
def dot (n : Nat) (a b : Col) : ℚ := ((List.range n).map fun i => a i * b i).sum

/-- Matrix-vector product (op_mul_mat applied to one column): row r of
the result is the dot product of row r of the matrix with the column,
over inner dimension n. -/
def matVec (n : Nat) (w : Nat → Col) (v : Col) : Col := fun r => dot n (w r) v

/-- Weights of one transformer layer (lib.rs lines 402-420). -/
structure LayerWeights where
  ln_1_g : Col
  ln_1_b : Col
  c_attn_q_proj_w : Nat → Col
  c_attn_k_proj_w : Nat → Col
  c_attn_v_proj_w : Nat → Col
  c_attn_proj_w : Nat → Col
  c_mlp_fc_w : Nat → Col
  c_mlp_fc_b : Col
  c_mlp_proj_w : Nat → Col
  c_mlp_proj_b : Col

/-- Abstract external kernels (spec section 6): op_norm on one column,
op_rope at a given absolute position (rotation width folded in), the
gelu nonlinearity, the softmax exponential, and the attention scale
1/sqrt(n_embd/n_head) computed in f32. -/
structure Ops where
  normCol : Col → Col
  ropeCol : Nat → Col → Col
  gelu : ℚ → ℚ
  expQ : ℚ → ℚ
  attnScale : ℚ

/-- The model: dimensions and weights used by evaluate (lib.rs lines
13-40). n_ff is the feed-forward width carried by the shapes of the
mlp tensors in the source. -/
structure GptJ where
  n_embd : Nat
  n_head : Nat
  n_ff : Nat
  wte : Nat → Col
  ln_f_g : Col
  ln_f_b : Col
  lmh_g : Nat → Col
  lmh_b : Col
  layers : List LayerWeights

/-- Layer normalization stage (lib.rs lines 169-174): op_norm on each
column followed by the affine scale ln_1_g and bias ln_1_b broadcast
by op_repeat. -/
def normStage (ops : Ops) (lw : LayerWeights) (cols : Cols) : Cols :=
  (cols.map ops.normCol).map fun c => fun i => lw.ln_1_g i * c i + lw.ln_1_b i

/-- Rotary encoding of a batch starting at absolute position p: column i
is rotated at position p + i (op_rope with offset argument n_past,
lib.rs lines 179-200). -/
def ropeFrom (ops : Ops) : Nat → Cols → Cols
  | _, [] => []
  | p, c :: cs => ops.ropeCol p c :: ropeFrom ops (p + 1) cs

/-- Query projection with rotary encoding (lib.rs lines 179-189). The
op_reshape_3d is layout only. -/
def qProj (m : GptJ) (ops : Ops) (lw : LayerWeights) (npast : Nat) (cols : Cols) : Cols :=
  ropeFrom ops npast (cols.map (matVec m.n_embd lw.c_attn_q_proj_w))

/-- Key projection with rotary encoding (lib.rs lines 190-200). -/
def kProj (m : GptJ) (ops : Ops) (lw : LayerWeights) (npast : Nat) (cols : Cols) : Cols :=
  ropeFrom ops npast (cols.map (matVec m.n_embd lw.c_attn_k_proj_w))

/-- Value projection (lib.rs lines 203-204); the op_transpose is layout
only (the transposed cache store proved in kv_cache_layout). -/
def vProj (m : GptJ) (lw : LayerWeights) (cols : Cols) : Cols :=
  cols.map (matVec m.n_embd lw.c_attn_v_proj_w)

/-- Components h*hd .. h*hd+hd-1 of a column: head h of head size hd
(the op_reshape_3d / op_permute head split). -/
def headSlice (hd h : Nat) (v : Col) : Col := fun i => v (h * hd + i)

/-- Merge per-head columns back into one n_embd column (op_permute of
kqv followed by op_cpy into a contiguous [n_embd, n] tensor, lib.rs
lines 258-261). -/
def mergeHeads (hd : Nat) (f : Nat → Col) : Col := fun i => f (i / hd) (i % hd)

/-- op_diag_mask_inf (lib.rs line 245): in the score row of the query at
batch index i, every key position j with j > n_past + i is set to
negative infinity (modelled as none) before the softmax; bound is
n_past + i. -/
def maskRow : Nat → List ℚ → List (Option ℚ)
  | _, [] => []
  | 0, x :: xs => some x :: xs.map fun _ => none
  | b + 1, x :: xs => some x :: maskRow b xs

/-- Exponential extended to masked scores: the exponential of negative
infinity is exactly zero (IEEE exp(-inf) = 0 in the external kernel). -/
def expMasked (ops : Ops) : Option ℚ → ℚ
  | none => 0
  | some x => ops.expQ x

/-- op_soft_max (lib.rs line 246) on one masked score row: normalize the
extended exponentials by their sum. -/
def softmaxRow (ops : Ops) (s : List (Option ℚ)) : List ℚ :=
  (s.map (expMasked ops)).map fun x => x / (s.map (expMasked ops)).sum

/-- Post-softmax attention weights of one query with causal bound
n_past + i. -/
def attnWeights (ops : Ops) (bound : Nat) (scores : List ℚ) : List ℚ :=
  softmaxRow ops (maskRow bound scores)

/-- Pre-mask score row of one query against all cached keys for one head
(op_mul_mat of big_k with q, then op_scale, lib.rs lines 239-243). -/
def scoreRow (ops : Ops) (hd h : Nat) (keys : Cols) (q : Col) : List ℚ :=
  keys.map fun k => ops.attnScale * dot hd (headSlice hd h k) (headSlice hd h q)

/-- Weighted sum of value columns by attention weights (op_mul_mat of
big_v with the softmaxed scores, lib.rs line 258). -/
def weightedSum (w : List ℚ) (vs : Cols) : Col :=
  fun i => (List.zipWith (fun a v => a * v i) w vs).sum

/-- Attention output of one query column at causal bound n_past + i:
per-head masked softmax over the scores against all cached keys,
weighted sum of the cached values, heads merged. -/
def attnQuery (m : GptJ) (ops : Ops) (keys vals : Cols) (bound : Nat) (q : Col) : Col :=
  mergeHeads (m.n_embd / m.n_head) fun h =>
    weightedSum (attnWeights ops bound (scoreRow ops (m.n_embd / m.n_head) h keys q))
      (vals.map (headSlice (m.n_embd / m.n_head) h))

/-- Attention outputs of a batch of queries; the causal bound starts at
n_past for batch index 0 and increases with the index. -/
def attnFrom (m : GptJ) (ops : Ops) (keys vals : Cols) : Nat → Cols → Cols
  | _, [] => []
  | bound, q :: qs =>
    attnQuery m ops keys vals bound q :: attnFrom m ops keys vals (bound + 1) qs

/-- Feed-forward branch (lib.rs lines 266-282): input projection, bias,
gelu, output projection, bias. Applied to the post-normalization
input_sa tensor. -/
def ffStage (m : GptJ) (ops : Ops) (lw : LayerWeights) (cols : Cols) : Cols :=
  ((((cols.map (matVec m.n_embd lw.c_mlp_fc_w)).map
      fun c => fun i => lw.c_mlp_fc_b i + c i).map
      fun c => fun i => ops.gelu (c i)).map
      (matVec m.n_ff lw.c_mlp_proj_w)).map
      fun c => fun i => lw.c_mlp_proj_b i + c i

/-- One layer of evaluate (lib.rs lines 168-288), mirroring the source
graph: normalization with affine scale/bias, rotary-encoded query and
key projections and the value projection of the normalized input, the
cache write at position n_past (truncate-and-append models the
flat-buffer view write at element offset n_past * n_embd), masked
softmax attention reading back the full cached range, the output
projection, the feed-forward branch computed from input_sa, and the
combined residual add in source order (feed-forward output plus
attention output plus layer input). -/
def layerStep (m : GptJ) (ops : Ops) (lw : LayerWeights) (kv : Cols × Cols)
    (npast : Nat) (inp : Cols) : Cols × (Cols × Cols) :=
  let input_sa := normStage ops lw inp
  let qcur := qProj m ops lw npast input_sa
  let kcur := kProj m ops lw npast input_sa
  let vcur := vProj m lw input_sa
  let kcache := kv.1.take npast ++ kcur
  let vcache := kv.2.take npast ++ vcur
  let ff_in := (attnFrom m ops kcache vcache npast qcur).map
    (matVec m.n_embd lw.c_attn_proj_w)
  let ff_out := ffStage m ops lw input_sa
  (List.zipWith addCol (List.zipWith addCol ff_out ff_in) inp, (kcache, vcache))

/-- Attention branch of one layer as the spec states it (section 4.2
steps 3 to 8), as a function of the post-normalization input: query,
key, value projections, cache update, masked softmax attention over
the cached range, output projection. -/
def attnBranch (m : GptJ) (ops : Ops) (lw : LayerWeights) (kv : Cols × Cols)
    (npast : Nat) (normed : Cols) : Cols :=
  (attnFrom m ops (kv.1.take npast ++ kProj m ops lw npast normed)
      (kv.2.take npast ++ vProj m lw normed) npast
      (qProj m ops lw npast normed)).map (matVec m.n_embd lw.c_attn_proj_w)

/-- New per-layer cache contents as a function of the post-normalization
input. -/
def layerKV (m : GptJ) (ops : Ops) (lw : LayerWeights) (kv : Cols × Cols)
    (npast : Nat) (normed : Cols) : Cols × Cols :=
  (kv.1.take npast ++ kProj m ops lw npast normed,
   kv.2.take npast ++ vProj m lw normed)

/-- All layers of evaluate in order; layer il uses its own cache pair
and the shared decode position n_past. -/
def runLayers (m : GptJ) (ops : Ops) : List LayerWeights → KV → Nat → Cols → Cols × KV
  | [], _, _, inp => (inp, [])
  | lw :: rest, kvs, npast, inp =>
    let r := layerStep m ops lw (kvs.headD ([], [])) npast inp
    let r2 := runLayers m ops rest kvs.tail npast r.1
    (r2.1, r.2 :: r2.2)

/-- evaluate (lib.rs lines 133-310): token embedding lookup
(op_get_rows on wte), all layers, final normalization with affine
ln_f_g / ln_f_b, language-model head lmh_g / lmh_b. Returns the
[n_vocab, n] logit columns and the updated caches. -/
def evaluate (m : GptJ) (ops : Ops) (kvs : KV) (npast : Nat) (tokens : List Nat) :
    Cols × KV :=
  let inp := tokens.map m.wte
  let r := runLayers m ops m.layers kvs npast inp
  let normed := (r.1.map ops.normCol).map fun c => fun i => m.ln_f_g i * c i + m.ln_f_b i
  let logits := (normed.map (matVec m.n_embd m.lmh_g)).map
    fun c => fun i => m.lmh_b i + c i
  (logits, r.2)

/-- Session state: decode position n_past, the per-layer KV cache, and
the context bound fixed at creation. Modelled from the spec:
InferenceSession lives in llm_base. -/
structure SessionState where
  n_past : Nat
  kv : KV
  n_ctx : Nat

/-- start_session (lib.rs lines 123-131): a fresh session built from
hyperparameters.n_ctx, with n_past starting at 0 and empty caches
(spec section 3). -/
def startSession (h : Hyperparameters) : SessionState := ⟨0, [], h.n_ctx⟩

/-- Forward-pass error. -/
inductive EvalError where
  | ContextWindowExceeded : EvalError
deriving DecidableEq

/-- Modelled from the spec (section 4.3): the bound check n_past + n >
n_ctx fails with ContextWindowExceeded before graph construction
mutates anything; the check and the n_past advance
(common::update_session) live in the session manager in llm_base,
outside this crate. -/
def guardedEvaluate (m : GptJ) (ops : Ops) (s : SessionState) (tokens : List Nat) :
    Except EvalError (Cols × SessionState) :=
  if s.n_ctx < s.n_past + tokens.length then .error .ContextWindowExceeded
  else
    .ok ((evaluate m ops s.kv s.n_past tokens).1,
      ⟨s.n_past + tokens.length, (evaluate m ops s.kv s.n_past tokens).2, s.n_ctx⟩)

/-- Session state after a forward-pass call: unchanged when the call
fails. -/
def sessionAfter (m : GptJ) (ops : Ops) (s : SessionState) (tokens : List Nat) :
    SessionState :=
  match guardedEvaluate m ops s tokens with
  | .error _ => s
  | .ok r => r.2

/-- Trivial kernel instantiation used by the concrete witnesses. -/
def trivOps : Ops := ⟨fun c => c, fun _ c => c, fun x => x, fun _ => 1, 1⟩

/-- Trivial one-dimensional model used by the concrete witnesses. -/
def trivModel : GptJ :=
  ⟨1, 1, 1, fun _ _ => 0, fun _ => 1, fun _ => 0, fun _ _ => 0, fun _ => 0, []⟩

/-- Witness for hyperparameters_write_then_read at a concrete
hyperparameter record. -/
theorem hyperparameters_write_then_read_witness :
    Hyperparameters.write ⟨7, 2, 3, 4, 5, 6, 1⟩ = .ok [7, 2, 3, 4, 5, 6, 1] ∧
    ∀ ws, Hyperparameters.write ⟨7, 2, 3, 4, 5, 6, 1⟩ = .ok ws →
      ws.length = 7 ∧
        (Hyperparameters.read (fun i => i ≤ 1) ws).isOk = false :=
  hyperparameters_write_then_read ⟨7, 2, 3, 4, 5, 6, 1⟩ (fun i => decide (i ≤ 1))
    (by decide) (by decide) (by decide) (by decide) (by decide) (by decide)

/-! ### Structural theorems about one layer -/

theorem addCol_comm (a b : Col) : addCol a b = addCol b a :=
  funext fun i => add_comm (a i) (b i)

theorem addCol_assoc (a b c : Col) :
    addCol (addCol a b) c = addCol a (addCol b c) :=
  funext fun i => add_assoc (a i) (b i) (c i)

theorem zipWith_addCol_comm (l1 l2 : Cols) :
    List.zipWith addCol l1 l2 = List.zipWith addCol l2 l1 :=
  List.zipWith_comm_of_comm addCol addCol_comm l1 l2

theorem zipWith_addCol_assoc :
    ∀ l1 l2 l3 : Cols,
      List.zipWith addCol (List.zipWith addCol l1 l2) l3 =
        List.zipWith addCol l1 (List.zipWith addCol l2 l3)
  | [], _, _ => rfl
  | _ :: _, [], _ => rfl
  | _ :: _, _ :: _, [] => rfl
  | a :: l1, b :: l2, c :: l3 => by
    simp only [List.zipWith_cons_cons, addCol_assoc, zipWith_addCol_assoc l1 l2 l3]

theorem zipWith_addCol_rot (a b c : Cols) :
    List.zipWith addCol (List.zipWith addCol a b) c =
      List.zipWith addCol (List.zipWith addCol c b) a := by
  rw [zipWith_addCol_comm a b, zipWith_addCol_assoc, zipWith_addCol_comm a c,
    ← zipWith_addCol_assoc, zipWith_addCol_comm b c]

/-- C2: in every layer, the feed-forward branch is computed from the same
post-normalization tensor input_sa that the query/key/value projections
of the attention branch read (not from the attention output), and the
next layer input equals the original layer input plus the attention
branch output plus the feed-forward branch output. -/
theorem parallel_branches (m : GptJ) (ops : Ops) (lw : LayerWeights)
    (kv : Cols × Cols) (npast : Nat) (inp : Cols) :
    layerStep m ops lw kv npast inp =
      (List.zipWith addCol
        (List.zipWith addCol inp (attnBranch m ops lw kv npast (normStage ops lw inp)))
        (ffStage m ops lw (normStage ops lw inp)),
       layerKV m ops lw kv npast (normStage ops lw inp)) := by
  unfold layerStep attnBranch layerKV
  refine Prod.ext ?_ rfl
  exact zipWith_addCol_rot (ffStage m ops lw (normStage ops lw inp)) _ inp

/-! ### Causal masking -/

theorem maskRow_getElem_of_gt :
    ∀ (bound j : Nat) (s : List ℚ), bound < j → j < s.length →
      (maskRow bound s)[j]? = some none
  | _, _, [], _, h => absurd h (by simp)
  | 0, j + 1, x :: xs, _, h => by
    have hj : j < xs.length := by simpa using h
    simp [maskRow, List.getElem?_replicate, hj]
  | 0, 0, x :: xs, h, _ => absurd h (by omega)
  | b + 1, 0, x :: xs, h, _ => absurd h (by omega)
  | b + 1, j + 1, x :: xs, h, h2 => by
    have hj : j < xs.length := by simpa using h2
    simp only [maskRow, List.getElem?_cons_succ]
    exact maskRow_getElem_of_gt b j xs (by omega) hj

/-- C5: the post-softmax attention weight that the query at batch index
i (causal bound n_past + i) assigns to any key position j strictly
greater than the bound is exactly zero, enforced by op_diag_mask_inf
setting the pre-softmax score at j to negative infinity before
normalization. -/
theorem causal_mask_zero (ops : Ops) (scores : List ℚ) (bound j : Nat)
    (hj : bound < j) (hlen : j < scores.length) :
    (maskRow bound scores)[j]? = some none ∧
    (attnWeights ops bound scores)[j]? = some 0 := by
  have hm := maskRow_getElem_of_gt bound j scores hj hlen
  refine ⟨hm, ?_⟩
  unfold attnWeights softmaxRow
  rw [List.getElem?_map, List.getElem?_map, hm]
  simp [expMasked]

/-- Witness for causal_mask_zero: batch index 0 with n_past 0 (bound 0)
and key position 2 in a three-score row. -/
theorem causal_mask_zero_witness :
    0 < 2 ∧
    ((maskRow 0 [1, 2, 3])[2]? = some none ∧
      (attnWeights trivOps 0 [1, 2, 3])[2]? = some 0) :=
  ⟨by decide, causal_mask_zero trivOps [1, 2, 3] 0 2 (by decide) (by decide)⟩

/-! ### Determinism -/

/-- C8: two forward-pass calls with identical weights, hyperparameters,
n_past, KV cache contents and input tokens produce identical logits;
the model forward pass is a pure function of these inputs (the spec
restricts the claim to single-threaded execution, and the external
kernels are fixed functions in Ops). -/
theorem deterministic_logits (m : GptJ) (ops : Ops) (kvs : KV) (npast : Nat)
    (tokens : List Nat) (l1 l2 : Cols)
    (h1 : l1 = (evaluate m ops kvs npast tokens).1)
    (h2 : l2 = (evaluate m ops kvs npast tokens).1) : l1 = l2 :=
  h1.trans h2.symm

/-- Witness for deterministic_logits on the trivial model. -/
theorem deterministic_logits_witness :
    (evaluate trivModel trivOps [] 0 [3]).1 = (evaluate trivModel trivOps [] 0 [3]).1 :=
  deterministic_logits trivModel trivOps [] 0 [3] _ _ rfl rfl

/-! ### Context window guard and session lifecycle -/

/-- C1: a forward-pass call with n_past + n > n_ctx fails with
ContextWindowExceeded before any KV-cache write; the session state,
and in particular the KV cache contents, are unchanged from before
the call. -/
theorem context_window_guard (m : GptJ) (ops : Ops) (s : SessionState)
    (tokens : List Nat) (hover : s.n_ctx < s.n_past + tokens.length) :
    guardedEvaluate m ops s tokens = .error .ContextWindowExceeded ∧
    sessionAfter m ops s tokens = s ∧
    (sessionAfter m ops s tokens).kv = s.kv := by
  have hg : guardedEvaluate m ops s tokens = .error .ContextWindowExceeded := by
    unfold guardedEvaluate
    rw [if_pos hover]
  refine ⟨hg, ?_, ?_⟩ <;> unfold sessionAfter <;> rw [hg]

/-- Witness for context_window_guard at the spec scenario: n_ctx 4,
n_past 3, a call with 2 new tokens. -/
theorem context_window_guard_witness :
    (4 < 3 + 2) ∧
    (guardedEvaluate trivModel trivOps ⟨3, [], 4⟩ [0, 1] =
        .error .ContextWindowExceeded ∧
      sessionAfter trivModel trivOps ⟨3, [], 4⟩ [0, 1] = ⟨3, [], 4⟩ ∧
      (sessionAfter trivModel trivOps ⟨3, [], 4⟩ [0, 1]).kv = []) :=
  ⟨by decide,
   context_window_guard trivModel trivOps ⟨3, [], 4⟩ [0, 1] (by decide)⟩

/-- C7: n_past starts at 0 at session creation, every successful
forward-pass call advances it by exactly the batch length (hence it
never decreases), and after any successful call it is still bounded by
the session context length. -/
theorem n_past_lifecycle (h : Hyperparameters) (m : GptJ) (ops : Ops)
    (s : SessionState) (tokens : List Nat) (logits : Cols) (s2 : SessionState)
    (hok : guardedEvaluate m ops s tokens = .ok (logits, s2)) :
    (startSession h).n_past = 0 ∧
    s2.n_past = s.n_past + tokens.length ∧
    s.n_past ≤ s2.n_past ∧
    s2.n_past ≤ s.n_ctx := by
  unfold guardedEvaluate at hok
  by_cases hc : s.n_ctx < s.n_past + tokens.length
  · rw [if_pos hc] at hok
    exact absurd hok (by simp)
  · rw [if_neg hc] at hok
    have hs2 : s2 = ⟨s.n_past + tokens.length,
        (evaluate m ops s.kv s.n_past tokens).2, s.n_ctx⟩ := by
      cases hok
      rfl
    subst hs2
    exact ⟨rfl, rfl, Nat.le_add_right _ _, Nat.le_of_not_lt hc⟩

/-- Witness for n_past_lifecycle: a successful single-token call on a
fresh session with context length 4. -/
theorem n_past_lifecycle_witness :
    (startSession ⟨1, 4, 1, 1, 0, 0, 0⟩).n_past = 0 ∧
    (⟨0 + 1, (evaluate trivModel trivOps [] 0 [5]).2, 4⟩ : SessionState).n_past =
      (startSession ⟨1, 4, 1, 1, 0, 0, 0⟩).n_past + 1 ∧
    (startSession ⟨1, 4, 1, 1, 0, 0, 0⟩).n_past ≤
      (⟨0 + 1, (evaluate trivModel trivOps [] 0 [5]).2, 4⟩ : SessionState).n_past ∧
    (⟨0 + 1, (evaluate trivModel trivOps [] 0 [5]).2, 4⟩ : SessionState).n_past ≤ 4 :=
  n_past_lifecycle ⟨1, 4, 1, 1, 0, 0, 0⟩ trivModel trivOps
    (startSession ⟨1, 4, 1, 1, 0, 0, 0⟩) [5]
    (evaluate trivModel trivOps [] 0 [5]).1
    ⟨0 + 1, (evaluate trivModel trivOps [] 0 [5]).2, 4⟩ rfl

/-! ### Prefix equivalence: append lemmas for each stage -/

theorem ropeFrom_append (ops : Ops) (xs : Cols) :
    ∀ (p : Nat) (ys : Cols),
      ropeFrom ops p (xs ++ ys) = ropeFrom ops p xs ++ ropeFrom ops (p + xs.length) ys := by
  induction xs with
  | nil => intro p ys; simp [ropeFrom]
  | cons x xs ih =>
    intro p ys
    have h1 : ropeFrom ops p (x :: xs ++ ys) =
        ops.ropeCol p x :: ropeFrom ops (p + 1) (xs ++ ys) := rfl
    have h2 : ropeFrom ops p (x :: xs) =
        ops.ropeCol p x :: ropeFrom ops (p + 1) xs := rfl
    rw [h1, h2, ih (p + 1) ys, List.cons_append, List.length_cons]
    have harith : p + 1 + xs.length = p + (xs.length + 1) := by omega
    rw [harith]

theorem ropeFrom_length (ops : Ops) :
    ∀ (p : Nat) (cs : Cols), (ropeFrom ops p cs).length = cs.length
  | _, [] => rfl
  | p, _ :: cs => by simp [ropeFrom, ropeFrom_length ops (p + 1) cs]

theorem normStage_length (ops : Ops) (lw : LayerWeights) (cols : Cols) :
    (normStage ops lw cols).length = cols.length := by
  simp [normStage]

theorem normStage_append (ops : Ops) (lw : LayerWeights) (xs ys : Cols) :
    normStage ops lw (xs ++ ys) = normStage ops lw xs ++ normStage ops lw ys := by
  simp [normStage]

theorem qProj_length (m : GptJ) (ops : Ops) (lw : LayerWeights) (npast : Nat) (cols : Cols) :
    (qProj m ops lw npast cols).length = cols.length := by
  simp [qProj, ropeFrom_length]

theorem kProj_length (m : GptJ) (ops : Ops) (lw : LayerWeights) (npast : Nat) (cols : Cols) :
    (kProj m ops lw npast cols).length = cols.length := by
  simp [kProj, ropeFrom_length]

theorem vProj_length (m : GptJ) (lw : LayerWeights) (cols : Cols) :
    (vProj m lw cols).length = cols.length := by
  simp [vProj]

theorem qProj_append (m : GptJ) (ops : Ops) (lw : LayerWeights) (npast : Nat) (xs ys : Cols) :
    qProj m ops lw npast (xs ++ ys) =
      qProj m ops lw npast xs ++ qProj m ops lw (npast + xs.length) ys := by
  unfold qProj
  rw [List.map_append, ropeFrom_append, List.length_map]

theorem kProj_append (m : GptJ) (ops : Ops) (lw : LayerWeights) (npast : Nat) (xs ys : Cols) :
    kProj m ops lw npast (xs ++ ys) =
      kProj m ops lw npast xs ++ kProj m ops lw (npast + xs.length) ys := by
  unfold kProj
  rw [List.map_append, ropeFrom_append, List.length_map]

theorem vProj_append (m : GptJ) (lw : LayerWeights) (xs ys : Cols) :
    vProj m lw (xs ++ ys) = vProj m lw xs ++ vProj m lw ys := by
  simp [vProj]

theorem ffStage_length (m : GptJ) (ops : Ops) (lw : LayerWeights) (cols : Cols) :
    (ffStage m ops lw cols).length = cols.length := by
  simp [ffStage]

theorem ffStage_append (m : GptJ) (ops : Ops) (lw : LayerWeights) (xs ys : Cols) :
    ffStage m ops lw (xs ++ ys) = ffStage m ops lw xs ++ ffStage m ops lw ys := by
  simp [ffStage]

theorem attnFrom_length (m : GptJ) (ops : Ops) (keys vals : Cols) :
    ∀ (b : Nat) (qs : Cols), (attnFrom m ops keys vals b qs).length = qs.length
  | _, [] => rfl
  | b, _ :: qs => by simp [attnFrom, attnFrom_length m ops keys vals (b + 1) qs]

theorem attnFrom_append (m : GptJ) (ops : Ops) (keys vals : Cols) (xs : Cols) :
    ∀ (b : Nat) (ys : Cols),
      attnFrom m ops keys vals b (xs ++ ys) =
        attnFrom m ops keys vals b xs ++ attnFrom m ops keys vals (b + xs.length) ys := by
  induction xs with
  | nil => intro b ys; simp [attnFrom]
  | cons x xs ih =>
    intro b ys
    have h1 : attnFrom m ops keys vals b (x :: xs ++ ys) =
        attnQuery m ops keys vals b x :: attnFrom m ops keys vals (b + 1) (xs ++ ys) := rfl
    have h2 : attnFrom m ops keys vals b (x :: xs) =
        attnQuery m ops keys vals b x :: attnFrom m ops keys vals (b + 1) xs := rfl
    rw [h1, h2, ih (b + 1) ys, List.cons_append, List.length_cons]
    have harith : b + 1 + xs.length = b + (xs.length + 1) := by omega
    rw [harith]

/-! ### Masked positions beyond the written range do not contribute -/

theorem maskRow_length : ∀ (b : Nat) (s : List ℚ), (maskRow b s).length = s.length
  | b, [] => by cases b <;> rfl
  | 0, _ :: xs => by simp [maskRow]
  | b + 1, _ :: xs => by simp [maskRow, maskRow_length b xs]

theorem softmaxRow_length (ops : Ops) (s : List (Option ℚ)) :
    (softmaxRow ops s).length = s.length := by
  simp [softmaxRow]

theorem maskRow_append_of_lt :
    ∀ (b : Nat) (s t : List ℚ), b < s.length →
      maskRow b (s ++ t) = maskRow b s ++ t.map fun _ => none
  | 0, x :: xs, t, _ => by simp [maskRow]
  | b + 1, x :: xs, t, h => by
    have ih := maskRow_append_of_lt b xs t (by simpa using h)
    simp [maskRow, ih]
  | 0, [], _, h => absurd h (by simp)
  | _ + 1, [], _, h => absurd h (by simp)

theorem sum_map_const_zero {α : Type} (t : List α) : (t.map fun _ => (0 : ℚ)).sum = 0 := by
  induction t with
  | nil => rfl
  | cons a t ih => simp [ih]

theorem softmaxRow_append_none {α : Type} (ops : Ops) (s : List (Option ℚ)) (t : List α) :
    softmaxRow ops (s ++ t.map fun _ => none) =
      softmaxRow ops s ++ t.map fun _ => (0 : ℚ) := by
  unfold softmaxRow
  have hmap : (s ++ t.map fun _ => none).map (expMasked ops) =
      s.map (expMasked ops) ++ t.map fun _ => (0 : ℚ) := by
    simp [List.map_append, List.map_map, Function.comp, expMasked]
  rw [hmap]
  have hsum : (s.map (expMasked ops) ++ t.map fun _ => (0 : ℚ)).sum =
      (s.map (expMasked ops)).sum := by
    rw [List.sum_append, sum_map_const_zero, add_zero]
  rw [hsum, List.map_append]
  congr 1
  simp [List.map_map, Function.comp]

theorem zipWith_map_zero_sum {α : Type} :
    ∀ (t : List α) (vs : Cols) (i : Nat),
      (List.zipWith (fun a v => a * v i) (t.map fun _ => (0 : ℚ)) vs).sum = 0
  | [], vs, i => by simp
  | _ :: _, [], _ => by simp
  | a :: t, v :: vs, i => by
    have ih := zipWith_map_zero_sum t vs i
    simp only [List.map_cons, List.zipWith_cons_cons, List.sum_cons, zero_mul, ih,
      zero_add]

theorem weightedSum_append_zero {α : Type} (w : List ℚ) (vs : Cols) (t : List α)
    (ve : Cols) (h : w.length = vs.length) :
    weightedSum (w ++ t.map fun _ => (0 : ℚ)) (vs ++ ve) = weightedSum w vs := by
  funext i
  unfold weightedSum
  rw [List.zipWith_append _ _ _ _ _ h, List.sum_append, zipWith_map_zero_sum, add_zero]

theorem scoreRow_append (ops : Ops) (hd h : Nat) (keys ke : Cols) (q : Col) :
    scoreRow ops hd h (keys ++ ke) q = scoreRow ops hd h keys q ++ scoreRow ops hd h ke q := by
  simp [scoreRow]

theorem scoreRow_length (ops : Ops) (hd h : Nat) (keys : Cols) (q : Col) :
    (scoreRow ops hd h keys q).length = keys.length := by
  simp [scoreRow]

theorem attnQuery_extend (m : GptJ) (ops : Ops) (K V Ke Ve : Cols) (b : Nat) (q : Col)
    (hb : b < K.length) (hKV : K.length = V.length) :
    attnQuery m ops (K ++ Ke) (V ++ Ve) b q = attnQuery m ops K V b q := by
  unfold attnQuery
  refine congrArg (mergeHeads (m.n_embd / m.n_head)) (funext fun h => ?_)
  rw [scoreRow_append]
  unfold attnWeights
  rw [maskRow_append_of_lt b _ _ (by rw [scoreRow_length]; exact hb),
    softmaxRow_append_none, List.map_append]
  exact weightedSum_append_zero _ _ _ _
    (by rw [softmaxRow_length, maskRow_length, scoreRow_length, List.length_map, hKV])

theorem attnFrom_extend (m : GptJ) (ops : Ops) (K V Ke Ve : Cols)
    (hKV : K.length = V.length) :
    ∀ (qs : Cols) (b : Nat), b + qs.length ≤ K.length →
      attnFrom m ops (K ++ Ke) (V ++ Ve) b qs = attnFrom m ops K V b qs
  | [], _, _ => rfl
  | q :: qs, b, hle => by
    have hlen : qs.length + 1 = (q :: qs).length := rfl
    have hb : b < K.length := by
      rw [← hlen] at hle
      omega
    have hrec := attnFrom_extend m ops K V Ke Ve hKV qs (b + 1)
      (by rw [← hlen] at hle; omega)
    simp only [attnFrom, attnQuery_extend m ops K V Ke Ve b q hb hKV, hrec]

/-! ### One-layer decomposition of a batch into two successive calls -/

theorem layerStep_fst (m : GptJ) (ops : Ops) (lw : LayerWeights) (kv : Cols × Cols)
    (npast : Nat) (inp : Cols) :
    (layerStep m ops lw kv npast inp).1 =
      List.zipWith addCol
        (List.zipWith addCol (ffStage m ops lw (normStage ops lw inp))
          ((attnFrom m ops
              (kv.1.take npast ++ kProj m ops lw npast (normStage ops lw inp))
              (kv.2.take npast ++ vProj m lw (normStage ops lw inp)) npast
              (qProj m ops lw npast (normStage ops lw inp))).map
            (matVec m.n_embd lw.c_attn_proj_w)))
        inp := rfl

theorem layerStep_snd (m : GptJ) (ops : Ops) (lw : LayerWeights) (kv : Cols × Cols)
    (npast : Nat) (inp : Cols) :
    (layerStep m ops lw kv npast inp).2 =
      (kv.1.take npast ++ kProj m ops lw npast (normStage ops lw inp),
       kv.2.take npast ++ vProj m lw (normStage ops lw inp)) := rfl

theorem layerStep_fst_length (m : GptJ) (ops : Ops) (lw : LayerWeights) (kv : Cols × Cols)
    (npast : Nat) (inp : Cols) :
    (layerStep m ops lw kv npast inp).1.length = inp.length := by
  rw [layerStep_fst]
  simp [List.length_zipWith, ffStage_length, attnFrom_length, qProj_length,
    normStage_length]

theorem layerStep_append (m : GptJ) (ops : Ops) (lw : LayerWeights) (kv : Cols × Cols)
    (npast : Nat) (xs ys : Cols) (hk : npast ≤ kv.1.length) (hv : npast ≤ kv.2.length) :
    layerStep m ops lw kv npast (xs ++ ys) =
      ((layerStep m ops lw kv npast xs).1 ++
        (layerStep m ops lw (layerStep m ops lw kv npast xs).2 (npast + xs.length) ys).1,
       (layerStep m ops lw (layerStep m ops lw kv npast xs).2 (npast + xs.length) ys).2) := by
  have hnx : (normStage ops lw xs).length = xs.length := normStage_length ops lw xs
  have hkx : (kProj m ops lw npast (normStage ops lw xs)).length = xs.length := by
    rw [kProj_length, hnx]
  have hvx : (vProj m lw (normStage ops lw xs)).length = xs.length := by
    rw [vProj_length, hnx]
  have hqx : (qProj m ops lw npast (normStage ops lw xs)).length = xs.length := by
    rw [qProj_length, hnx]
  have hK1 : (kv.1.take npast ++ kProj m ops lw npast (normStage ops lw xs)).length =
      npast + xs.length := by
    rw [List.length_append, List.length_take, hkx]
    omega
  have hV1 : (kv.2.take npast ++ vProj m lw (normStage ops lw xs)).length =
      npast + xs.length := by
    rw [List.length_append, List.length_take, hvx]
    omega
  have htakeK : (kv.1.take npast ++ kProj m ops lw npast (normStage ops lw xs)).take
      (npast + xs.length) =
      kv.1.take npast ++ kProj m ops lw npast (normStage ops lw xs) :=
    List.take_of_length_le (le_of_eq hK1)
  have htakeV : (kv.2.take npast ++ vProj m lw (normStage ops lw xs)).take
      (npast + xs.length) =
      kv.2.take npast ++ vProj m lw (normStage ops lw xs) :=
    List.take_of_length_le (le_of_eq hV1)
  have hkcache : kv.1.take npast ++ kProj m ops lw npast (normStage ops lw (xs ++ ys)) =
      (kv.1.take npast ++ kProj m ops lw npast (normStage ops lw xs)) ++
        kProj m ops lw (npast + xs.length) (normStage ops lw ys) := by
    rw [normStage_append, kProj_append, hnx, List.append_assoc]
  have hvcache : kv.2.take npast ++ vProj m lw (normStage ops lw (xs ++ ys)) =
      (kv.2.take npast ++ vProj m lw (normStage ops lw xs)) ++
        vProj m lw (normStage ops lw ys) := by
    rw [normStage_append, vProj_append, List.append_assoc]
  refine Prod.ext ?_ ?_
  · rw [layerStep_fst, layerStep_fst, layerStep_fst, layerStep_snd]
    simp only [htakeK, htakeV]
    rw [hkcache, hvcache, normStage_append, ffStage_append, qProj_append, hnx,
      attnFrom_append, hqx]
    rw [attnFrom_extend m ops _ _ _ _ (hK1.trans hV1.symm) _ npast
      (by rw [hqx, hK1])]
    rw [List.map_append]
    rw [List.zipWith_append _ _ _ _ _
      (by rw [ffStage_length, hnx, List.length_map, attnFrom_length, hqx])]
    rw [List.zipWith_append _ _ _ _ _
      (by rw [List.length_zipWith, ffStage_length, hnx, List.length_map,
        attnFrom_length, hqx, min_self])]
  · rw [layerStep_snd, layerStep_snd, layerStep_snd]
    simp only [htakeK, htakeV]
    exact Prod.ext hkcache.symm hvcache.symm |>.symm

/-! ### Multi-layer and whole-pass decomposition -/

/-- Invariant: each of the first nl per-layer caches holds at least npast
cached positions (what a session that has processed npast tokens
guarantees). -/
def CacheGood (npast nl : Nat) (kvs : KV) : Prop :=
  ∀ i, i < nl → npast ≤ (kvs.getD i ([], [])).1.length ∧
    npast ≤ (kvs.getD i ([], [])).2.length

theorem headD_eq_getD (kvs : KV) : kvs.headD ([], []) = kvs.getD 0 ([], []) := by
  cases kvs <;> rfl

theorem tail_getD (kvs : KV) (i : Nat) :
    kvs.tail.getD i ([], []) = kvs.getD (i + 1) ([], []) := by
  cases kvs <;> rfl

theorem CacheGood_tail (npast nl : Nat) (kvs : KV)
    (h : CacheGood npast (nl + 1) kvs) : CacheGood npast nl kvs.tail := by
  intro i hi
  rw [tail_getD]
  exact h (i + 1) (by omega)

theorem runLayers_append (m : GptJ) (ops : Ops) :
    ∀ (ls : List LayerWeights) (kvs : KV) (npast : Nat) (xs ys : Cols),
      CacheGood npast ls.length kvs →
      runLayers m ops ls kvs npast (xs ++ ys) =
        ((runLayers m ops ls kvs npast xs).1 ++
          (runLayers m ops ls (runLayers m ops ls kvs npast xs).2
            (npast + xs.length) ys).1,
         (runLayers m ops ls (runLayers m ops ls kvs npast xs).2
            (npast + xs.length) ys).2)
  | [], kvs, npast, xs, ys, _ => by simp [runLayers]
  | lw :: rest, kvs, npast, xs, ys, h => by
    have hk0 : npast ≤ (kvs.headD ([], [])).1.length := by
      rw [headD_eq_getD]
      exact (h 0 (Nat.succ_pos _)).1
    have hv0 : npast ≤ (kvs.headD ([], [])).2.length := by
      rw [headD_eq_getD]
      exact (h 0 (Nat.succ_pos _)).2
    have hlen : (layerStep m ops lw (kvs.headD ([], [])) npast xs).1.length =
        xs.length := layerStep_fst_length m ops lw _ npast xs
    have ih := runLayers_append m ops rest kvs.tail npast
      (layerStep m ops lw (kvs.headD ([], [])) npast xs).1
      (layerStep m ops lw (layerStep m ops lw (kvs.headD ([], [])) npast xs).2
        (npast + xs.length) ys).1
      (CacheGood_tail npast rest.length kvs h)
    simp only [runLayers,
      layerStep_append m ops lw (kvs.headD ([], [])) npast xs ys hk0 hv0,
      List.headD_cons, List.tail_cons, ih, hlen]

theorem runLayers_fst_length (m : GptJ) (ops : Ops) :
    ∀ (ls : List LayerWeights) (kvs : KV) (npast : Nat) (inp : Cols),
      (runLayers m ops ls kvs npast inp).1.length = inp.length
  | [], _, _, _ => rfl
  | lw :: rest, kvs, npast, inp => by
    simp only [runLayers]
    rw [runLayers_fst_length m ops rest kvs.tail npast _, layerStep_fst_length]

theorem evaluate_fst_length (m : GptJ) (ops : Ops) (kvs : KV) (npast : Nat)
    (tokens : List Nat) :
    (evaluate m ops kvs npast tokens).1.length = tokens.length := by
  simp [evaluate, runLayers_fst_length]

theorem evaluate_append (m : GptJ) (ops : Ops) (kvs : KV) (npast : Nat)
    (xs ys : List Nat) (h : CacheGood npast m.layers.length kvs) :
    evaluate m ops kvs npast (xs ++ ys) =
      ((evaluate m ops kvs npast xs).1 ++
        (evaluate m ops (evaluate m ops kvs npast xs).2 (npast + xs.length) ys).1,
       (evaluate m ops (evaluate m ops kvs npast xs).2 (npast + xs.length) ys).2) := by
  unfold evaluate
  simp only [List.map_append]
  rw [runLayers_append m ops m.layers kvs npast (xs.map m.wte) (ys.map m.wte) h]
  simp only [List.length_map, List.map_append]

/-- C4: processing token t0 with n_past 0 and then token t1 with n_past 1
against the same session caches yields, for the last position of the
second call, exactly the logits of the last position of one call
processing both tokens from n_past 0 — for every model and every
choice of the external kernels. -/
theorem incremental_matches_batch (m : GptJ) (ops : Ops) (t0 t1 : Nat) :
    (evaluate m ops (evaluate m ops [] 0 [t0]).2 1 [t1]).1.getLast? =
    (evaluate m ops [] 0 [t0, t1]).1.getLast? := by
  have hgood : CacheGood 0 m.layers.length [] := fun i _ =>
    ⟨Nat.zero_le _, Nat.zero_le _⟩
  have he := evaluate_append m ops [] 0 [t0] [t1] hgood
  have h2 : ([t0] ++ [t1] : List Nat) = [t0, t1] := rfl
  rw [h2] at he
  rw [he]
  have hne : (evaluate m ops (evaluate m ops [] 0 [t0]).2 (0 + [t0].length) [t1]).1 ≠
      [] := by
    have hl := evaluate_fst_length m ops (evaluate m ops [] 0 [t0]).2
      (0 + [t0].length) [t1]
    intro hcon
    rw [hcon] at hl
    simp at hl
  rw [List.getLast?_append_of_ne_nil _ hne]
  rfl
